import Mathlib

/-
Verification of the SCIFIO ImageIO bridge (src/itkSCIFIOImageIO.cxx).

The file embeds, as executable Lean definitions, the pieces of the C++
source that the checked properties are about:

  * the `valueOfString` conversions built on `std::istringstream`
    (numeric extraction, the `bool` specialisation with its `boolalpha`
    fallback),
  * the metadata value unescaping loop and the key/value frame parsing
    loop of `ReadImageInformation`,
  * the `numPlanes` computation and the lookup-table block emission of
    `Write`,
  * the process supervisor transitions `CreateJavaProcess` /
    `DestroyJavaProcess` (process handle and the retained write end of
    the stdin pipe, with the post-spawn process state injected as a
    parameter),
  * the binary streaming loop of `Read` over an explicit list of pipe
    events.

Machine integers are modelled as `Int` with explicit range checks where
the stream extraction would set `failbit` on overflow.
-/

namespace Scifio

/-! ## istringstream-style numeric extraction

`valueOfString<T>` (lines 66-75) runs `std::istringstream(s) >> res` and
throws when extraction fails.  Extraction skips leading whitespace,
accepts an optional sign and a run of decimal digits; with no digit the
conversion fails (C++11: the value is zeroed and `failbit` is set). -/

/-- C-locale whitespace, as skipped by the stream sentry. -/
def isWs (c : Char) : Bool :=
  c = ' ' || c = '\t' || c = '\n' || c = '\r' || c = '\x0b' || c = '\x0c'

/-- Drop the leading whitespace a stream sentry would skip. -/
def skipWs (cs : List Char) : List Char := cs.dropWhile isWs

/-- Decimal value of a digit run. -/
def natValue (ds : List Char) : Int :=
  ds.foldl (fun acc c => acc * 10 + Int.ofNat (c.toNat - 48)) 0

/-- One numeric extraction step of `operator>>`: skip whitespace, read an
optional sign and a digit run.  Returns the parsed value (`none` when no
digit was accumulated, i.e. the conversion failed) together with the
unconsumed remainder of the stream. -/
def splitNumber (cs : List Char) : Option Int × List Char :=
  let cs1 := skipWs cs
  let sg : Int × List Char :=
    match cs1 with
    | '-' :: r => (-1, r)
    | '+' :: r => (1, r)
    | _ => (1, cs1)
  let ds := sg.2.takeWhile Char.isDigit
  let rest := sg.2.dropWhile Char.isDigit
  if ds.isEmpty then (none, rest) else (some (sg.1 * natValue ds), rest)

/-- `valueOfString<int>` (lines 66-75): numeric extraction that throws a
conversion error when the parse fails or the value does not fit in the
32-bit `int` (out-of-range extraction sets `failbit`). -/
def valueOfStringInt (s : String) : Except String Int :=
  match splitNumber s.data with
  | (none, _) => Except.error ("SCIFIOImageIO: error while converting: " ++ s)
  | (some v, _) =>
    if v < -(2 ^ 31) ∨ 2 ^ 31 - 1 < v then
      Except.error ("SCIFIOImageIO: error while converting: " ++ s)
    else Except.ok v

/-- `valueOfString<short>`: as `valueOfStringInt` with the 16-bit range. -/
def valueOfStringShort (s : String) : Except String Int :=
  match splitNumber s.data with
  | (none, _) => Except.error ("SCIFIOImageIO: error while converting: " ++ s)
  | (some v, _) =>
    if v < -(2 ^ 15) ∨ 2 ^ 15 - 1 < v then
      Except.error ("SCIFIOImageIO: error while converting: " ++ s)
    else Except.ok v

/-- The `boolalpha` retry of the `bool` specialisation (lines 94-95):
after `ss.clear()`, `ss >> std::boolalpha >> res` runs on the unconsumed
remainder.  When only whitespace remains the sentry fails and `res` keeps
its previous value `v`; otherwise `num_get` matches the literal tokens
`true` / `false` and stores `false` on a mismatch. -/
def boolalphaRetry (v : Bool) (rest : List Char) : Bool :=
  let r := skipWs rest
  if r.isEmpty then v
  else if "true".data.isPrefixOf r then true
  else if "false".data.isPrefixOf r then false
  else false

/-- The `bool` specialisation `valueOfString<bool>` (lines 85-98): first a
numeric extraction (`0` gives `false`, `1` gives `true`, any other parsed
number stores `true` and sets `failbit`; a failed parse stores `false`),
then on failure the `boolalpha` retry.  It never throws. -/
def valueOfStringBool (s : String) : Bool :=
  match splitNumber s.data with
  | (some v, rest) =>
    if v = 0 then false
    else if v = 1 then true
    else boolalphaRetry true rest
  | (none, rest) => boolalphaRetry false rest

/-- Modelled from the spec: the boolean conversion as the specification
states it — numeric `0`/`1` first, then the literal tokens, and a
conversion error when neither attempt succeeds.  Stated only for
comparison with the implementation `valueOfStringBool`. -/
def valueOfStringBoolSpec (s : String) : Except String Bool :=
  match splitNumber s.data with
  | (some 0, _) => Except.ok false
  | (some 1, _) => Except.ok true
  | (_, rest) =>
    let r := skipWs rest
    if "true".data.isPrefixOf r then Except.ok true
    else if "false".data.isPrefixOf r then Except.ok false
    else Except.error ("SCIFIOImageIO: error while converting: " ++ s)

/-! ## Metadata value unescaping

`ReadImageInformation`, lines 497-528: the loop scans the value with
`value.find("\\", lp0)`, copies the backslash-free prefix verbatim, then
looks at the character after the backslash: a second backslash emits a
literal backslash, an `n` emits a linefeed, anything else emits nothing;
in all three cases `lp0` advances by two, so the following character is
consumed.  A backslash in final position (`lp1 == value.size()-1`) fails
the `lp1 < value.size()-1` guard: nothing is emitted and `lp0` jumps past
the end, ending the loop. -/

/-- The unescape loop of `ReadImageInformation` (lines 497-528), expressed
by recursion on the characters: a non-backslash character is part of the
verbatim-copied prefix before the next `find` hit; a backslash followed by
a character emits the escape's expansion and consumes both; a backslash in
final position emits nothing and ends the scan. -/
def unescape : List Char → List Char
  | [] => []
  | c :: rest =>
    if c = '\\' then
      match rest with
      | [] => []
      | d :: tl =>
        (if d = '\\' then ['\\'] else if d = 'n' then ['\n'] else []) ++ unescape tl
    else c :: unescape rest

/-- The scan of the unescape loop reaches a backslash in final position:
true exactly when, stepping two characters past every backslash and one
past every other character, the scan ends on a lone trailing backslash. -/
def endsLone : List Char → Bool
  | [] => false
  | c :: rest =>
    if c = '\\' then
      match rest with
      | [] => true
      | _ :: tl => endsLone tl
    else endsLone rest

/-! ## Metadata dictionary and the frame-parsing loop

`ReadImageInformation`, lines 430-540.  The dictionary is an ordered
string-to-string mapping; `HasKey` tests membership and
`EncapsulateMetaData` appends a new entry.  The loop reads the frame line
by line via `find("\n", p0)` / `substr`: an empty line at key position is
skipped, an empty line at value position abandons the pending key and
continues with the following line as a fresh key line, and a key/value
pair is inserted only when the key is not already present (duplicate
occurrences are logged and discarded, lines 491-494).

The frame is represented by its list of lines.  On a frame in which every
line is newline-terminated (as every complete frame is, since frames end
with the blank-line sentinel), each `find`/`substr` step of the source
reads exactly the next line of that list.  When a non-empty key line is
the frame's very last line, the source's value read runs `find` past the
end of the string, `find` returns `npos`, and `p0 = npos + 1` wraps to
`0`: the loop restarts from the beginning of the unchanged string and
never terminates.  That divergent case is modelled as `none`. -/

/-- `MetaDataDictionary::HasKey` over the ordered-list model. -/
def hasKey (dict : List (String × String)) (k : String) : Bool :=
  dict.any fun p => p.1 = k

/-- Lookup of the value stored for a key (first occurrence). -/
def lookupKey (dict : List (String × String)) (k : String) : Option String :=
  match dict with
  | [] => none
  | p :: rest => if p.1 = k then some p.2 else lookupKey rest k

/-- `ExposeMetaData<std::string>` as used by `GetTypedMetaData` (lines
77-83): on a missing key the output string keeps its initial empty
value. -/
def exposeMeta (dict : List (String × String)) (k : String) : String :=
  (lookupKey dict k).getD ""

/-- The key/value frame-parsing loop of `ReadImageInformation` (lines
430-540) on the frame's list of lines, accumulating the dictionary.
`none` marks the source's non-terminating scan (a non-empty key line with
no following line). -/
def parseFrameLines : List String → List (String × String) →
    Option (List (String × String))
  | [], dict => some dict
  | line :: rest, dict =>
    if line = "" then parseFrameLines rest dict
    else
      match rest with
      | [] => none
      | v :: rest2 =>
        if v = "" then parseFrameLines rest2 dict
        else if hasKey dict line then parseFrameLines rest2 dict
        else parseFrameLines rest2 (dict ++ [(line, String.mk (unescape v.data))])

/-! ## The Write path: plane count and lookup-table block

`SCIFIOImageIO::Write`, lines 775-927. -/

/-- The `numPlanes` accumulation of `Write` (lines 836-866): for each of
the five canonical axes inside the region's dimensionality, if the axis is
Z, C or T (indices 2, 3, 4) the plane count is multiplied by
`size - index` of that axis. -/
def numPlanes (regionDim : Nat) (idx sz : Nat → Int) : Int :=
  (List.range 5).foldl
    (fun n dim =>
      if dim < regionDim ∧ (dim = 2 ∨ dim = 3 ∨ dim = 4) then
        n * (sz dim - idx dim)
      else n)
    1

/-- One lookup-table entry of the write command in the 8-bit branch
(lines 894-905): the R, G and B values, each followed by a tab. -/
def lutEntryFields (r g b : Int) : String :=
  toString r ++ "\t" ++ toString g ++ "\t" ++ toString b ++ "\t"

/-- The per-entry loop of the lookup-table block (lines 893-919): entry
`i` reads `LUTR<i>`, `LUTG<i>`, `LUTB<i>` from the dictionary — as `int`
when the declared bit depth is 8, as `short` otherwise — and appends the
three tab-terminated values; the non-8-bit branch then appends one more
tab (line 917). -/
def writeLutEntries (dict : List (String × String)) (bits : Int) :
    Nat → Nat → Except String String
  | _, 0 => Except.ok ""
  | i, n + 1 =>
    if bits = 8 then do
      let r ← valueOfStringInt (exposeMeta dict ("LUTR" ++ toString i))
      let g ← valueOfStringInt (exposeMeta dict ("LUTG" ++ toString i))
      let b ← valueOfStringInt (exposeMeta dict ("LUTB" ++ toString i))
      let rest ← writeLutEntries dict bits (i + 1) n
      Except.ok (lutEntryFields r g b ++ rest)
    else do
      let r ← valueOfStringShort (exposeMeta dict ("LUTR" ++ toString i))
      let g ← valueOfStringShort (exposeMeta dict ("LUTG" ++ toString i))
      let b ← valueOfStringShort (exposeMeta dict ("LUTB" ++ toString i))
      let rest ← writeLutEntries dict bits (i + 1) n
      Except.ok (lutEntryFields r g b ++ "\t" ++ rest)

/-- The lookup-table block of the write command (lines 870-925): the
`UseLUT` flag read as a boolean, then either the flag field `1` followed
by bit depth, entry count and the per-entry values, or the single flag
field `0`. -/
def writeLutBlock (dict : List (String × String)) : Except String String :=
  if valueOfStringBool (exposeMeta dict "UseLUT") then do
    let bits ← valueOfStringInt (exposeMeta dict "LUTBits")
    let len ← valueOfStringInt (exposeMeta dict "LUTLength")
    let entries ← writeLutEntries dict bits 0 len.toNat
    Except.ok ("1\t" ++ toString bits ++ "\t" ++ toString len ++ "\t" ++ entries)
  else Except.ok "0\t"

/-- Modelled from the spec: the per-entry lookup-table values with exactly
three tab-separated values per entry for every declared bit depth, as the
specification describes them.  Stated only for comparison with the
implementation `writeLutEntries`. -/
def lutEntriesSpec (dict : List (String × String)) (bits : Int) :
    Nat → Nat → Except String String
  | _, 0 => Except.ok ""
  | i, n + 1 => do
    let conv := if bits = 8 then valueOfStringInt else valueOfStringShort
    let r ← conv (exposeMeta dict ("LUTR" ++ toString i))
    let g ← conv (exposeMeta dict ("LUTG" ++ toString i))
    let b ← conv (exposeMeta dict ("LUTB" ++ toString i))
    let rest ← lutEntriesSpec dict bits (i + 1) n
    Except.ok (lutEntryFields r g b ++ rest)

/-- Modelled from the spec: the lookup-table block with exactly three
tab-separated values per entry for every declared bit depth, as the
specification describes it.  Stated only for comparison with the
implementation `writeLutBlock`. -/
def lutBlockSpec (dict : List (String × String)) : Except String String :=
  if valueOfStringBool (exposeMeta dict "UseLUT") then do
    let bits ← valueOfStringInt (exposeMeta dict "LUTBits")
    let len ← valueOfStringInt (exposeMeta dict "LUTLength")
    let entries ← lutEntriesSpec dict bits 0 len.toNat
    Except.ok ("1\t" ++ toString bits ++ "\t" ++ toString len ++ "\t" ++ entries)
  else Except.ok "0\t"

/-- Concatenation of a list of strings, used to state the shape of the
emitted lookup-table entries. -/
def strConcat : List String → String
  | [] => ""
  | s :: rest => s ++ strConcat rest

/-- A concrete metadata dictionary declaring a 16-bit lookup table with a
single entry, used as the input exhibiting the extra tab. -/
def lutDict16 : List (String × String) :=
  [("UseLUT", "1"), ("LUTBits", "16"), ("LUTLength", "1"),
   ("LUTR0", "10"), ("LUTG0", "20"), ("LUTB0", "30")]

/-! ## Process supervisor

`CreateJavaProcess` (lines 164-253) and `DestroyJavaProcess` (lines
262-286).  The bridge state carries the `m_Process` handle — reduced to
the post-spawn process state it would report — and whether the retained
write end `m_Pipe[1]` of the stdin pipe is open.  The state the freshly
spawned process settles into is injected as a parameter; the
`itkExceptionMacro` throws carry the member state as it stands at the
throw, since the members persist across the exception. -/

/-- The `itksysProcess` states switched on after `Execute` (lines
202-252). -/
inductive ProcState
  | executing
  | exited
  | procError
  | procException
  | expired
  | killed
  | disowned
  | unknown
deriving DecidableEq

/-- The supervisor state: the `m_Process` handle (with the process state
it reports) and whether the write end `m_Pipe[1]` is open. -/
structure Bridge where
  process : Option ProcState
  pipeOpen : Bool
deriving DecidableEq

/-- `DestroyJavaProcess` (lines 262-286): with no process handle it
returns at once, touching nothing; otherwise it kills the process if it
is still executing, waits, deletes the handle and closes the write end of
the pipe. -/
def destroyJavaProcess (b : Bridge) : Bridge :=
  match b.process with
  | none => b
  | some _ => { process := none, pipeOpen := false }

/-- The error message of the post-spawn switch branch for each
non-executing state (lines 202-252). -/
def spawnErrorMsg : ProcState → String
  | ProcState.exited =>
    "SCIFIOImageIO: ITKReadImageInformation exited with return value."
  | ProcState.procError => "SCIFIOImageIO: ITKReadImageInformation error."
  | ProcState.procException => "SCIFIOImageIO: ITKReadImageInformation exception."
  | ProcState.expired =>
    "SCIFIOImageIO: internal error: ITKReadImageInformation expired."
  | ProcState.killed =>
    "SCIFIOImageIO: internal error: ITKReadImageInformation killed."
  | ProcState.disowned =>
    "SCIFIOImageIO: internal error: ITKReadImageInformation disowned."
  | _ => "SCIFIOImageIO: internal error: ITKReadImageInformation is in unknown state."

/-- The pipe creation, `Execute` and post-spawn switch of
`CreateJavaProcess` (lines 182-252), starting from a state with no stale
handle: the pipe pair is created, the process is spawned and settles into
`spawnState`; every state other than `executing` throws with the members
as just written. -/
def spawnProcess (spawnState : ProcState) : Except (String × Bridge) Bridge :=
  let b2 : Bridge := { process := some spawnState, pipeOpen := true }
  match spawnState with
  | ProcState.executing => Except.ok b2
  | st => Except.error (spawnErrorMsg st, b2)

/-- `CreateJavaProcess` (lines 164-253): an executing process is reused;
a stale non-executing handle is destroyed first; then the pipe pair is
created and the process spawned, failing on every post-spawn state other
than `executing`. -/
def createJavaProcess (b : Bridge) (spawnState : ProcState) :
    Except (String × Bridge) Bridge :=
  match b.process with
  | some ProcState.executing => Except.ok b
  | some _ => spawnProcess spawnState
  | none => spawnProcess spawnState

/-! ## The Read streaming loop

`SCIFIOImageIO::Read`, lines 675-704: with the target byte count computed
from the region, the loop repeatedly waits for pipe data; a stdout chunk
is copied into the destination buffer at the running offset, stderr text
is accumulated, and any other wait result tears the process down and
throws. -/

/-- One `itksysProcess_WaitForData` result. -/
inductive PipeEvent
  | out (chunk : List Nat)
  | err (text : String)
  | closed
deriving DecidableEq

/-- `memcpy(data + pos, chunk, chunk.length)` on the buffer model. -/
def writeAt (buf : List Nat) (pos : Nat) (chunk : List Nat) : List Nat :=
  buf.take pos ++ chunk ++ buf.drop (pos + chunk.length)

/-- The streaming loop of `Read` (lines 682-701) over the list of pipe
events, with the running offset and the destination buffer.  An exhausted
event list while bytes are still owed corresponds to a wait that never
returns and is reported as an error. -/
def readLoop (byteCount : Nat) : List PipeEvent → Nat → List Nat →
    Except String (List Nat)
  | [], pos, buf =>
    if pos < byteCount then Except.error "blocked waiting for data"
    else Except.ok buf
  | PipeEvent.out c :: rest, pos, buf =>
    if pos < byteCount then readLoop byteCount rest (pos + c.length) (writeAt buf pos c)
    else Except.ok buf
  | PipeEvent.err _ :: rest, pos, buf =>
    if pos < byteCount then readLoop byteCount rest pos buf
    else Except.ok buf
  | PipeEvent.closed :: _, pos, buf =>
    if pos < byteCount then
      Except.error "SCIFIOImageIO: ITKBridgePipes read exited abnormally."
    else Except.ok buf

/-! ## Helper lemmas -/

/-- Inversion of a successful `Except` bind. -/
theorem bindOkElim {α β : Type} {x : Except String α} {f : α → Except String β}
    {y : β} (h : (x >>= f) = Except.ok y) :
    ∃ a, x = Except.ok a ∧ f a = Except.ok y := by
  cases x with
  | error e => simp [Bind.bind, Except.bind] at h
  | ok a => exact ⟨a, rfl, h⟩

/-- A key already present keeps its looked-up value under appending. -/
theorem lookupKey_append {dict : List (String × String)}
    {k : String} (h : hasKey dict k = true) (e : List (String × String)) :
    lookupKey (dict ++ e) k = lookupKey dict k := by
  induction dict with
  | nil => simp [hasKey] at h
  | cons p rest ih =>
    by_cases hp : p.1 = k
    · simp [lookupKey, hp]
    · have hr : hasKey rest k = true := by
        unfold hasKey at h
        rw [List.any_cons] at h
        rcases (Bool.or_eq_true _ _).mp h with h1 | h1
        · exact absurd (of_decide_eq_true h1) hp
        · exact h1
      simp [lookupKey, hp, ih hr]

/-- Key membership is preserved by appending. -/
theorem hasKey_append {dict : List (String × String)} {k : String}
    (h : hasKey dict k = true) (e : List (String × String)) :
    hasKey (dict ++ e) k = true := by
  unfold hasKey at h ⊢
  rw [List.any_append, h, Bool.true_or]

/-- Once a key is present in the accumulated dictionary, the rest of the
frame-parsing loop never changes the value stored for it. -/
theorem parseFrameLines_keeps :
    ∀ (lines : List String) (dict dict2 : List (String × String)) (k : String),
      parseFrameLines lines dict = some dict2 → hasKey dict k = true →
      lookupKey dict2 k = lookupKey dict k := by
  intro lines dict
  induction lines, dict using parseFrameLines.induct with
  | case1 dict =>
    intro dict2 k hp _
    rw [show parseFrameLines [] dict = some dict from rfl] at hp
    cases hp
    rfl
  | case2 rest dict ih =>
    intro dict2 k hp hk
    unfold parseFrameLines at hp
    exact ih dict2 k (by simpa using hp) hk
  | case3 line dict hline =>
    intro dict2 k hp _
    simp only [parseFrameLines, if_neg hline] at hp
    cases hp
  | case4 line dict hline rest2 ih =>
    intro dict2 k hp hk
    simp only [parseFrameLines, if_neg hline, if_pos rfl] at hp
    exact ih dict2 k hp hk
  | case5 line dict hline v rest2 hv hkey ih =>
    intro dict2 k hp hk
    simp only [parseFrameLines, if_neg hline, if_neg hv, if_pos hkey] at hp
    exact ih dict2 k hp hk
  | case6 line dict hline v rest2 hv hkey ih =>
    intro dict2 k hp hk
    simp only [parseFrameLines, if_neg hline, if_neg hv, if_neg hkey] at hp
    rw [ih dict2 k hp (hasKey_append hk _), lookupKey_append hk]

/-- Writing a chunk that fits keeps the buffer length. -/
theorem writeAt_length {buf : List Nat} {pos : Nat} {c : List Nat}
    (h : pos + c.length ≤ buf.length) :
    (writeAt buf pos c).length = buf.length := by
  simp only [writeAt, List.length_append, List.length_take, List.length_drop]
  omega

/-- The populated prefix after writing a chunk at the running offset. -/
theorem writeAt_take {buf : List Nat} {pos : Nat} (c : List Nat)
    (h : pos ≤ buf.length) :
    (writeAt buf pos c).take (pos + c.length) = buf.take pos ++ c := by
  unfold writeAt
  rw [List.append_assoc, ← List.append_assoc]
  exact List.take_left' (by simp [List.length_take]; omega)

/-- The streaming loop, fed exactly the owed bytes in stdout chunks,
terminates with the buffer populated in order from the running offset. -/
theorem readLoop_ok (chunks : List (List Nat)) :
    ∀ (bc pos : Nat) (buf : List Nat), buf.length = bc →
      pos + (chunks.map List.length).sum = bc →
      readLoop bc (chunks.map PipeEvent.out) pos buf =
        Except.ok (buf.take pos ++ chunks.flatten) := by
  induction chunks with
  | nil =>
    intro bc pos buf hlen hsum
    simp only [List.map_nil, List.sum_nil, Nat.add_zero] at hsum
    rw [List.map_nil, readLoop, if_neg (by omega), List.flatten_nil, List.append_nil]
    rw [hsum, ← hlen, List.take_length]
  | cons c rest ih =>
    intro bc pos buf hlen hsum
    simp only [List.map_cons, List.sum_cons] at hsum
    by_cases hlt : pos < bc
    · rw [List.map_cons, readLoop, if_pos hlt]
      rw [ih bc (pos + c.length) (writeAt buf pos c)
        ((writeAt_length (by omega)).trans hlen) (by omega)]
      rw [writeAt_take c (by omega), List.flatten_cons, List.append_assoc]
    · have hc : c.length = 0 ∧ (rest.map List.length).sum = 0 := by omega
      rw [List.map_cons, readLoop, if_neg hlt]
      have hjoin : (c :: rest).flatten = [] := by
        apply List.eq_nil_of_length_eq_zero
        rw [List.length_flatten]
        simp [hc.1, hc.2]
      rw [hjoin, List.append_nil]
      have hpos : pos = bc := by omega
      rw [hpos, ← hlen, List.take_length]

/-- A list whose scan ends on a lone trailing backslash is nonempty. -/
theorem endsLone_ne_nil {v : List Char} (h : endsLone v = true) : v ≠ [] := by
  intro he
  rw [he] at h
  simp [endsLone] at h

/-- Every successfully emitted lookup-table entry list is a concatenation
of three tab-terminated values per entry, with one extra tab per entry
exactly when the declared bit depth is not 8. -/
theorem writeLutEntries_shape :
    ∀ (n : Nat) (dict : List (String × String)) (bits : Int) (i : Nat) (es : String),
      writeLutEntries dict bits i n = Except.ok es →
      ∃ ts : List (Int × Int × Int), ts.length = n ∧
        es = strConcat (ts.map fun t =>
          lutEntryFields t.1 t.2.1 t.2.2 ++ (if bits = 8 then "" else "\t")) := by
  intro n
  induction n with
  | zero =>
    intro dict bits i es h
    rw [writeLutEntries] at h
    cases h
    exact ⟨[], rfl, rfl⟩
  | succ n ih =>
    intro dict bits i es h
    rw [writeLutEntries] at h
    by_cases h8 : bits = 8
    · rw [if_pos h8] at h
      obtain ⟨r, hr, h⟩ := bindOkElim h
      obtain ⟨g, hg, h⟩ := bindOkElim h
      obtain ⟨b, hb, h⟩ := bindOkElim h
      obtain ⟨restS, hrest, h⟩ := bindOkElim h
      cases h
      obtain ⟨ts, hts, hes⟩ := ih dict bits (i + 1) restS hrest
      refine ⟨(r, g, b) :: ts, by simp [hts], ?_⟩
      simp only [List.map_cons, strConcat, hes, h8, if_pos]
      simp
    · rw [if_neg h8] at h
      obtain ⟨r, hr, h⟩ := bindOkElim h
      obtain ⟨g, hg, h⟩ := bindOkElim h
      obtain ⟨b, hb, h⟩ := bindOkElim h
      obtain ⟨restS, hrest, h⟩ := bindOkElim h
      cases h
      obtain ⟨ts, hts, hes⟩ := ih dict bits (i + 1) restS hrest
      refine ⟨(r, g, b) :: ts, by simp [hts], ?_⟩
      simp only [List.map_cons, strConcat, hes, if_neg h8]

/-- Step equation: a backslash followed by a character expands the escape
and consumes both characters. -/
theorem unescape_esc (d : Char) (tl : List Char) :
    unescape ('\\' :: d :: tl) =
      (if d = '\\' then ['\\'] else if d = 'n' then ['\n'] else []) ++ unescape tl := by
  rw [unescape.eq_def]
  simp

/-- Step equation: a non-backslash character is copied unchanged. -/
theorem unescape_plain {c : Char} (rest : List Char) (h : c ≠ '\\') :
    unescape (c :: rest) = c :: unescape rest := by
  rw [unescape.eq_def]
  simp [h]

/-- Step equation for the trailing-backslash scan over an escape pair. -/
theorem endsLone_esc (d : Char) (tl : List Char) :
    endsLone ('\\' :: d :: tl) = endsLone tl := by
  rw [endsLone.eq_def]
  simp

/-- Step equation for the trailing-backslash scan over a plain character. -/
theorem endsLone_plain {c : Char} (rest : List Char) (h : c ≠ '\\') :
    endsLone (c :: rest) = endsLone rest := by
  rw [endsLone.eq_def]
  simp [h]

/-! ## Claim theorems -/

/-- Claim C1, counterexample: for a 3-dimensional region with extents
5 on the Z axis and start index 1 there, the handshake loop drives
`numPlanes = size - index = 4` planes, not the claimed product of extents
`5 * 1 * 1 = 5`, so the plane count is not independent of the start
indices. -/
theorem claim1_counterexample :
    numPlanes 3 (fun d => if d = 2 then 1 else 0) (fun _ => 5) = 4 ∧
    (5 : Int) * (1 * 1) = 5 ∧
    numPlanes 3 (fun d => if d = 2 then 1 else 0) (fun _ => 5) ≠ 5 :=
  ⟨by decide, by norm_num, by decide⟩

/-- Claim C1, amended: the number of planes driven by the write handshake
loop is the product, over the Z, T and C axes that lie inside the region's
dimensionality, of that axis's extent minus its start index; axes beyond
the region's dimensionality contribute factor 1.  It equals the product of
extents only when the Z/T/C start indices are zero. -/
theorem claim1_amended_planeCount (regionDim : Nat) (idx sz : Nat → Int) :
    numPlanes regionDim idx sz =
      (if 2 < regionDim then sz 2 - idx 2 else 1) *
      ((if 3 < regionDim then sz 3 - idx 3 else 1) *
       (if 4 < regionDim then sz 4 - idx 4 else 1)) := by
  unfold numPlanes
  rw [show List.range 5 = [0, 1, 2, 3, 4] from rfl]
  simp only [List.foldl_cons, List.foldl_nil]
  norm_num
  split_ifs <;> ring

/-- Claim C2, counterexample: on the input string `xyz` neither the
numeric `0`/`1` attempt nor the `true`/`false` token attempt succeeds; the
specification's conversion would fail with a conversion error, but the
implementation returns the value `false` without signalling anything. -/
theorem claim2_counterexample :
    valueOfStringBoolSpec "xyz" =
      Except.error "SCIFIOImageIO: error while converting: xyz" ∧
    valueOfStringBool "xyz" = false :=
  ⟨rfl, rfl⟩

/-- Claim C2, amended: boolean parsing first attempts numeric `0`/`1`,
then falls back to the literal tokens `true`/`false`; when the numeric
parse reads no number at all and the fallback matches neither token, the
function returns `false` (the value stored by the failed extraction)
instead of raising a conversion error. -/
theorem claim2_amended_boolParse :
    valueOfStringBool "0" = false ∧ valueOfStringBool "1" = true ∧
    valueOfStringBool "true" = true ∧ valueOfStringBool "false" = false ∧
    (∀ (s : String) (r : List Char), splitNumber s.data = (none, r) →
      "true".data.isPrefixOf (skipWs r) = false →
      "false".data.isPrefixOf (skipWs r) = false →
      valueOfStringBool s = false) := by
  refine ⟨rfl, rfl, rfl, rfl, ?_⟩
  intro s r h h1 h2
  simp only [valueOfStringBool, h, boolalphaRetry, h1, h2]
  split <;> rfl

/-- Claim C2, witness: the amended theorem applied at `xyz`. -/
theorem claim2_witness : valueOfStringBool "xyz" = false :=
  claim2_amended_boolParse.2.2.2.2 "xyz" ['x', 'y', 'z']
    (by decide) (by decide) (by decide)

/-- Claim C3: the unescape loop rewrites a backslash-backslash pair to one
literal backslash, a backslash-`n` pair to one linefeed, drops a backslash
together with any other following character, and copies every character
not consumed by an escape unchanged; the value bytes `a \ \ n b` decode to
`a \ n b` and `a \ n SP b` decode to `a LF SP b`. -/
theorem claim3_unescape_rules :
    (∀ (c : Char) (rest : List Char), c ≠ '\\' →
      unescape (c :: rest) = c :: unescape rest) ∧
    (∀ rest : List Char, unescape ('\\' :: '\\' :: rest) = '\\' :: unescape rest) ∧
    (∀ rest : List Char, unescape ('\\' :: 'n' :: rest) = '\n' :: unescape rest) ∧
    (∀ (d : Char) (rest : List Char), d ≠ '\\' → d ≠ 'n' →
      unescape ('\\' :: d :: rest) = unescape rest) ∧
    unescape ['a', '\\', '\\', 'n', 'b'] = ['a', '\\', 'n', 'b'] ∧
    unescape ['a', '\\', 'n', ' ', 'b'] = ['a', '\n', ' ', 'b'] := by
  refine ⟨?_, ?_, ?_, ?_, by decide, by decide⟩
  · intro c rest h
    rw [unescape.eq_def]
    simp [h]
  · intro rest
    rw [unescape.eq_def]
    simp
  · intro rest
    rw [unescape.eq_def]
    simp
  · intro d rest h1 h2
    rw [unescape.eq_def]
    simp [h1, h2]

/-- Claim C3, witness: the escape rules applied at concrete characters. -/
theorem claim3_witness :
    unescape ['x', 'q'] = 'x' :: unescape ['q'] ∧
    unescape ['\\', 'q', 'z'] = unescape ['z'] :=
  ⟨claim3_unescape_rules.1 'x' ['q'] (by decide),
   claim3_unescape_rules.2.2.2.1 'q' ['z'] (by decide) (by decide)⟩

/-- Claim C4: within one metadata frame the first occurrence of a key
wins — once a key is stored, the rest of the frame-parsing loop never
changes the value looked up for it — and the frame
`SizeX/10//SizeX/20/` yields exactly `SizeX == 10`. -/
theorem claim4_firstKeyWins :
    (∀ (lines : List String) (dict dict2 : List (String × String)) (k : String),
      parseFrameLines lines dict = some dict2 → hasKey dict k = true →
      lookupKey dict2 k = lookupKey dict k) ∧
    parseFrameLines ["SizeX", "10", "", "SizeX", "20", ""] [] =
      some [("SizeX", "10")] :=
  ⟨parseFrameLines_keeps, by decide⟩

/-- Claim C4, witness: the preservation statement applied to the tail of
the duplicate-key frame, starting from the dictionary already holding
`SizeX == 10`. -/
theorem claim4_witness :
    lookupKey [("SizeX", "10")] "SizeX" = lookupKey [("SizeX", "10")] "SizeX" :=
  claim4_firstKeyWins.1 ["SizeX", "20", ""] [("SizeX", "10")] [("SizeX", "10")]
    "SizeX" (by decide) (by decide)

/-- Claim C5, counterexample: on a dictionary declaring a 16-bit
single-entry lookup table, the emitted block carries an extra tab after
the entry's three values (an empty fourth field per entry), differing from
the specification's exactly-three-values block. -/
theorem claim5_counterexample :
    writeLutBlock lutDict16 = Except.ok "1\t16\t1\t10\t20\t30\t\t" ∧
    lutBlockSpec lutDict16 = Except.ok "1\t16\t1\t10\t20\t30\t" ∧
    ("1\t16\t1\t10\t20\t30\t\t" : String) ≠ "1\t16\t1\t10\t20\t30\t" :=
  ⟨rfl, rfl, by decide⟩

/-- Claim C5, amended: a successful lookup-table block is the flag `1`,
the bit depth, the entry count, then the entries; each entry contributes
its three tab-terminated R, G, B values, and for every declared bit depth
other than 8 one extra tab per entry (an empty fourth field), while depth
8 contributes exactly the three values. -/
theorem claim5_amended_lutShape :
    (∀ (dict : List (String × String)) (bs : String),
      writeLutBlock dict = Except.ok bs →
      valueOfStringBool (exposeMeta dict "UseLUT") = true →
      ∃ (bits len : Int) (es : String),
        valueOfStringInt (exposeMeta dict "LUTBits") = Except.ok bits ∧
        valueOfStringInt (exposeMeta dict "LUTLength") = Except.ok len ∧
        writeLutEntries dict bits 0 len.toNat = Except.ok es ∧
        bs = "1\t" ++ toString bits ++ "\t" ++ toString len ++ "\t" ++ es) ∧
    (∀ (n : Nat) (dict : List (String × String)) (bits : Int) (i : Nat)
      (es : String), writeLutEntries dict bits i n = Except.ok es →
      ∃ ts : List (Int × Int × Int), ts.length = n ∧
        es = strConcat (ts.map fun t =>
          lutEntryFields t.1 t.2.1 t.2.2 ++ (if bits = 8 then "" else "\t"))) := by
  constructor
  · intro dict bs h hflag
    rw [writeLutBlock, if_pos hflag] at h
    obtain ⟨bits, hbits, h⟩ := bindOkElim h
    obtain ⟨len, hlen, h⟩ := bindOkElim h
    obtain ⟨es, hes, h⟩ := bindOkElim h
    cases h
    exact ⟨bits, len, es, hbits, hlen, hes, rfl⟩
  · exact writeLutEntries_shape

/-- Claim C5, witness: the block shape applied to the concrete 16-bit
dictionary. -/
theorem claim5_witness :
    ∃ (bits len : Int) (es : String),
      valueOfStringInt (exposeMeta lutDict16 "LUTBits") = Except.ok bits ∧
      valueOfStringInt (exposeMeta lutDict16 "LUTLength") = Except.ok len ∧
      writeLutEntries lutDict16 bits 0 len.toNat = Except.ok es ∧
      "1\t16\t1\t10\t20\t30\t\t" =
        "1\t" ++ toString bits ++ "\t" ++ toString len ++ "\t" ++ es :=
  claim5_amended_lutShape.1 lutDict16 "1\t16\t1\t10\t20\t30\t\t" rfl rfl

/-- Claim C6, counterexample: spawning from a clean state into the
`exited` post-spawn state makes `CreateJavaProcess` throw, but the
completed call leaves the just-created process handle (and the freshly
opened pipe) in the member state — no teardown runs before the call
completes. -/
theorem claim6_counterexample :
    createJavaProcess { process := none, pipeOpen := false } ProcState.exited =
      Except.error (spawnErrorMsg ProcState.exited,
        { process := some ProcState.exited, pipeOpen := true }) ∧
    (Bridge.mk (some ProcState.exited) true).process ≠ none :=
  ⟨rfl, by decide⟩

/-- Claim C6, amended: every post-spawn state other than `executing` makes
`CreateJavaProcess` fail with an error, but the failing call retains the
just-spawned process handle and open pipe in the member state; the stale
handle is only torn down at the start of the next `CreateJavaProcess`
call, which behaves exactly as a call from the destroyed state. -/
theorem claim6_amended_createProcess :
    (∀ (b : Bridge) (st : ProcState), st ≠ ProcState.executing →
      b.process ≠ some ProcState.executing →
      createJavaProcess b st =
        Except.error (spawnErrorMsg st,
          { process := some st, pipeOpen := true })) ∧
    (∀ (st st2 : ProcState) (p : Bool), st ≠ ProcState.executing →
      createJavaProcess { process := some st, pipeOpen := p } st2 =
        createJavaProcess { process := none, pipeOpen := false } st2) := by
  constructor
  · intro b st h hb
    obtain ⟨proc, pipe⟩ := b
    have hspawn : createJavaProcess ⟨proc, pipe⟩ st = spawnProcess st := by
      cases proc with
      | none => rfl
      | some s =>
        cases s with
        | executing => exact absurd rfl hb
        | exited => rfl
        | procError => rfl
        | procException => rfl
        | expired => rfl
        | killed => rfl
        | disowned => rfl
        | unknown => rfl
    rw [hspawn]
    cases st with
    | executing => exact absurd rfl h
    | exited => rfl
    | procError => rfl
    | procException => rfl
    | expired => rfl
    | killed => rfl
    | disowned => rfl
    | unknown => rfl
  · intro st st2 p h
    cases st with
    | executing => exact absurd rfl h
    | exited => rfl
    | procError => rfl
    | procException => rfl
    | expired => rfl
    | killed => rfl
    | disowned => rfl
    | unknown => rfl

/-- Claim C6, witness: the amended behaviour at the `exited` state. -/
theorem claim6_witness :
    createJavaProcess { process := none, pipeOpen := true } ProcState.killed =
      Except.error (spawnErrorMsg ProcState.killed,
        { process := some ProcState.killed, pipeOpen := true }) :=
  claim6_amended_createProcess.1 { process := none, pipeOpen := true }
    ProcState.killed (by decide) (by decide)

/-- Claim C7, counterexample: called with no process handle,
`DestroyJavaProcess` returns at once and does not release the pipe — on a
state with the pipe open and no process, the pipe stays open. -/
theorem claim7_counterexample :
    destroyJavaProcess { process := none, pipeOpen := true } =
      { process := none, pipeOpen := true } ∧
    (destroyJavaProcess { process := none, pipeOpen := true }).pipeOpen ≠ false :=
  ⟨rfl, by decide⟩

/-- Claim C7, amended: `DestroyJavaProcess` releases the write end of the
pipe exactly when a process handle exists (killing the process first if it
is executing); with no process it returns immediately with the state
untouched — which is what makes a second call after a full teardown safe —
and the operation is idempotent. -/
theorem claim7_amended_destroyProcess :
    (∀ (b : Bridge) (st : ProcState), b.process = some st →
      destroyJavaProcess b = { process := none, pipeOpen := false }) ∧
    (∀ b : Bridge, b.process = none → destroyJavaProcess b = b) ∧
    (∀ b : Bridge, destroyJavaProcess (destroyJavaProcess b) =
      destroyJavaProcess b) := by
  refine ⟨?_, ?_, ?_⟩
  · intro b st h
    obtain ⟨proc, pipe⟩ := b
    cases proc with
    | none => cases h
    | some s => rfl
  · intro b h
    obtain ⟨proc, pipe⟩ := b
    cases proc with
    | none => rfl
    | some s => cases h
  · intro b
    obtain ⟨proc, pipe⟩ := b
    cases proc with
    | none => rfl
    | some s => rfl

/-- Claim C7, witness: teardown from a live-process state, and
idempotence from the resulting state. -/
theorem claim7_witness :
    destroyJavaProcess { process := some ProcState.executing, pipeOpen := true } =
      { process := none, pipeOpen := false } ∧
    destroyJavaProcess { process := none, pipeOpen := false } =
      { process := none, pipeOpen := false } :=
  ⟨claim7_amended_destroyProcess.1
      { process := some ProcState.executing, pipeOpen := true }
      ProcState.executing rfl,
    claim7_amended_destroyProcess.2.1 { process := none, pipeOpen := false } rfl⟩

/-- Claim C8: when the worker delivers exactly the declared byte count on
the output channel, split into any sequence of chunks, the read loop
terminates with the destination buffer holding the delivered bytes in
their original order. -/
theorem claim8_readCompleteness (chunks : List (List Nat)) (byteCount : Nat)
    (h : (chunks.map List.length).sum = byteCount) :
    readLoop byteCount (chunks.map PipeEvent.out) 0
      (List.replicate byteCount 0) = Except.ok chunks.flatten := by
  rw [readLoop_ok chunks byteCount 0 (List.replicate byteCount 0)
    (List.length_replicate byteCount 0) (by omega)]
  rw [List.take_zero, List.nil_append]

/-- Claim C8, witness: three bytes delivered as a one-byte chunk followed
by a two-byte chunk. -/
theorem claim8_witness :
    readLoop 3 ([[1], [2, 3]].map PipeEvent.out) 0 (List.replicate 3 0) =
      Except.ok ([[1], [2, 3]] : List (List Nat)).flatten :=
  claim8_readCompleteness [[1], [2, 3]] 3 (by decide)

/-- Claim C9: whenever the unescape scan reaches a backslash in final
position, the value is nonempty, the loop terminates, and the decoded
result is exactly the decoding of the characters before that trailing
backslash — nothing is emitted for the backslash itself. -/
theorem claim9_trailingBackslash :
    ∀ v : List Char, endsLone v = true →
      v ≠ [] ∧ unescape v = unescape v.dropLast := by
  intro v
  induction v using endsLone.induct with
  | case1 =>
    intro h
    exact absurd h (by decide)
  | case2 =>
    intro _
    exact ⟨by decide, rfl⟩
  | case3 d tl ih =>
    intro h
    rw [endsLone_esc] at h
    have hne : tl ≠ [] := endsLone_ne_nil h
    refine ⟨by simp, ?_⟩
    obtain ⟨x, xs, rfl⟩ : ∃ x xs, tl = x :: xs := by
      cases tl with
      | nil => exact absurd rfl hne
      | cons x xs => exact ⟨x, xs, rfl⟩
    rw [show ('\\' :: d :: x :: xs).dropLast = '\\' :: d :: (x :: xs).dropLast
      from rfl]
    rw [unescape_esc d (x :: xs), unescape_esc d ((x :: xs).dropLast)]
    rw [(ih h).2]
  | case4 d tl h1 ih =>
    intro h
    rw [endsLone_plain tl h1] at h
    have hne : tl ≠ [] := endsLone_ne_nil h
    refine ⟨by simp, ?_⟩
    obtain ⟨x, xs, rfl⟩ : ∃ x xs, tl = x :: xs := by
      cases tl with
      | nil => exact absurd rfl hne
      | cons x xs => exact ⟨x, xs, rfl⟩
    rw [show (d :: x :: xs).dropLast = d :: (x :: xs).dropLast from rfl]
    rw [unescape_plain (x :: xs) h1, unescape_plain ((x :: xs).dropLast) h1]
    rw [(ih h).2]

/-- Claim C9, witness: the trailing-backslash rule at the value `a\`. -/
theorem claim9_witness :
    (['a', '\\'] : List Char) ≠ [] ∧
    unescape ['a', '\\'] = unescape (['a', '\\'] : List Char).dropLast :=
  claim9_trailingBackslash ['a', '\\'] (by decide)

/-- Claim C10: a non-empty key line immediately followed by an empty line
contributes nothing to the dictionary — the key is discarded without an
entry — and parsing continues with the line after the empty line as a
fresh key line; the frame `K//A/1/` yields only `A == 1`. -/
theorem claim10_emptyValueLine :
    (∀ (k : String) (rest : List String) (dict : List (String × String)),
      k ≠ "" → parseFrameLines (k :: "" :: rest) dict = parseFrameLines rest dict) ∧
    parseFrameLines ["K", "", "A", "1", ""] [] = some [("A", "1")] := by
  constructor
  · intro k rest dict h
    rw [parseFrameLines.eq_def]
    simp [h]
  · decide

/-- Claim C10, witness: the discarded-key rule at the concrete frame. -/
theorem claim10_witness :
    parseFrameLines ["K", "", "A", "1", ""] [] =
      parseFrameLines ["A", "1", ""] [] :=
  claim10_emptyValueLine.1 "K" ["A", "1", ""] [] (by decide)

end Scifio
